import Mathlib

/-!
Shallow embedding of the money-return-tracker web app core logic
(src/app.js together with the near-duplicate revisions in
src/unnamed/part_000 and src/unnamed/part_001): the spelled-number
parser, the OCR amount extractor, the cut / expected-return summary
computation, the statement row mapper and the statement matcher.

Modelling conventions: JS numbers are rationals (the claims never rest
on float rounding), JS strings are Lean strings (UTF-16 code units and
Unicode scalar values coincide on every character these claims touch),
and nullable string fields are strings with the empty string standing
for null/undefined (both are falsy, which is the only way the code
inspects them).
-/

namespace MRT

/-! JavaScript-flavoured character and string helpers. -/

/-- The characters JS regexes treat as whitespace, restricted to the ASCII
range (the app never feeds exotic Unicode whitespace to these regexes). -/
def jsWs (c : Char) : Bool :=
  c = ' ' || c = '\t' || c = '\n' || c = '\r' || c = '\x0b' || c = '\x0c'

def digitC (c : Char) : Bool := '0' ≤ c && c ≤ '9'

def alphaC (c : Char) : Bool := ('a' ≤ c && c ≤ 'z') || ('A' ≤ c && c ≤ 'Z')

/-- Word character for JS word-boundary tests. -/
def wordC (c : Char) : Bool := alphaC c || digitC c || c = '_'

/-- JS String.prototype.toLowerCase, on the ASCII letters the app uses. -/
def lowerList (cs : List Char) : List Char := cs.map Char.toLower

/-- JS String.prototype.trim. -/
def trimList (cs : List Char) : List Char :=
  ((cs.dropWhile jsWs).reverse.dropWhile jsWs).reverse

/-- JS String.prototype.includes: is the first list a contiguous substring
of the second? -/
def strIncl (sub : List Char) : List Char → Bool
  | [] => sub.isEmpty
  | c :: rest => sub.isPrefixOf (c :: rest) || strIncl sub rest

/-! The spelled-number parser wordsToNumber (src/app.js lines 75-91, and
the zero-check revision at src/app.js lines 1031-1048, part_000 lines
250-267, part_001 lines 287-304). -/

def unitVal : String → Option Nat
  | "zero" => some 0 | "one" => some 1 | "two" => some 2 | "three" => some 3
  | "four" => some 4 | "five" => some 5 | "six" => some 6 | "seven" => some 7
  | "eight" => some 8 | "nine" => some 9 | "ten" => some 10
  | "eleven" => some 11 | "twelve" => some 12 | "thirteen" => some 13
  | "fourteen" => some 14 | "fifteen" => some 15 | "sixteen" => some 16
  | "seventeen" => some 17 | "eighteen" => some 18 | "nineteen" => some 19
  | _ => none

def tensVal : String → Option Nat
  | "twenty" => some 20 | "thirty" => some 30 | "forty" => some 40
  | "fifty" => some 50 | "sixty" => some 60 | "seventy" => some 70
  | "eighty" => some 80 | "ninety" => some 90
  | _ => none

def scaleVal : String → Option Nat
  | "hundred" => some 100 | "thousand" => some 1000
  | "lakh" => some 100000 | "lacs" => some 100000 | "lakhs" => some 100000
  | "crore" => some 10000000 | "crores" => some 10000000
  | _ => none

/-- The ignore set of wordsToNumber. -/
def fillerWord (tok : String) : Bool :=
  tok == "and" || tok == "rupees" || tok == "rs" || tok == "only"

/-- Characters kept by the replace of non [a-z whitespace hyphen]
characters with a space (applied after toLowerCase). -/
def wtnKeep (c : Char) : Bool := ('a' ≤ c && c ≤ 'z') || jsWs c || c = '-'

/-- The replace of every whitespace run with a single space. -/
def collapseWsAux : List Char → Bool → List Char
  | [], _ => []
  | c :: rest, prevWs =>
    if jsWs c then
      if prevWs then collapseWsAux rest true else ' ' :: collapseWsAux rest true
    else c :: collapseWsAux rest false

def collapseWs (cs : List Char) : List Char := collapseWsAux cs false

/-- JS String.prototype.split at a single space character. -/
def splitSpAux : List Char → List Char → List (List Char)
  | [], cur => [cur.reverse]
  | c :: rest, cur =>
    if c = ' ' then cur.reverse :: splitSpAux rest [] else splitSpAux rest (c :: cur)

/-- The token stream of wordsToNumber: lowercase, replace characters
outside [a-z whitespace hyphen] with spaces, collapse whitespace runs,
trim, split at spaces. -/
def wtnTokens (raw : String) : List String :=
  (splitSpAux (trimList (collapseWs ((lowerList raw.data).map
    (fun c => if wtnKeep c then c else ' ')))) []).map String.mk

/-- One loop iteration of wordsToNumber over the accumulator
(total, current, seen). -/
def wtnStep (acc : Nat × Nat × Bool) (tok : String) : Nat × Nat × Bool :=
  if fillerWord tok then acc
  else
    match unitVal tok with
    | some u => (acc.1, acc.2.1 + u, true)
    | none =>
      match tensVal tok with
      | some u => (acc.1, acc.2.1 + u, true)
      | none =>
        match scaleVal tok with
        | some m => (acc.1 + (if acc.2.1 = 0 then 1 else acc.2.1) * m, 0, true)
        | none => acc

def wtnRun (raw : String) : Nat × Nat × Bool :=
  (wtnTokens raw).foldl wtnStep (0, 0, false)

/-- wordsToNumber as in src/app.js lines 75-91: the seen flag alone
decides between a parsed value and null. -/
def wordsToNumber (raw : String) : Option Nat :=
  if raw = "" then none
  else if (wtnRun raw).2.2 then some ((wtnRun raw).1 + (wtnRun raw).2.1) else none

/-- wordsToNumber as in src/app.js lines 1031-1048, part_000 lines
250-267 and part_001 lines 287-304: the final return is
seen ? (total || null) : null, so a parsed total of zero also yields
null. -/
def wordsToNumber_zc (raw : String) : Option Nat :=
  if raw = "" then none
  else if (wtnRun raw).2.2 then
    (if (wtnRun raw).1 + (wtnRun raw).2.1 = 0 then none
     else some ((wtnRun raw).1 + (wtnRun raw).2.1))
  else none

/-- A token that the parser recognizes as numeric: a unit, tens or scale
word. -/
def numericWord (tok : String) : Bool :=
  (unitVal tok).isSome || (tensVal tok).isSome || (scaleVal tok).isSome

/-- Some token of the normalized input is a recognized numeric word. -/
def recognizesNumericWord (raw : String) : Bool :=
  (wtnTokens raw).any numericWord

lemma numericWord_of_filler (tok : String) (h : fillerWord tok = true) :
    numericWord tok = false := by
  unfold fillerWord at h
  simp only [Bool.or_eq_true, beq_iff_eq] at h
  rcases h with ((h | h) | h) | h <;> subst h <;> decide

lemma wtnFoldl_seen (ts : List String) : ∀ total current seen,
    ((ts.foldl wtnStep (total, current, seen)).2.2) = (seen || ts.any numericWord) := by
  induction ts with
  | nil => intro t c s; simp
  | cons tok rest ih =>
    intro total current seen
    simp only [List.foldl_cons, List.any_cons]
    by_cases hf : fillerWord tok = true
    · have hnw := numericWord_of_filler tok hf
      simp [wtnStep, hf, hnw, ih]
    · rcases hu : unitVal tok with _ | u
      · rcases ht : tensVal tok with _ | u
        · rcases hs : scaleVal tok with _ | m
          · have hnw : numericWord tok = false := by
              simp [numericWord, hu, ht, hs]
            simp [wtnStep, hf, hu, ht, hs, hnw, ih]
          · have hnw : numericWord tok = true := by
              simp [numericWord, hs]
            simp [wtnStep, hf, hu, ht, hs, hnw, ih]
        · have hnw : numericWord tok = true := by
            simp [numericWord, ht]
          simp [wtnStep, hf, hu, ht, hnw, ih]
      · have hnw : numericWord tok = true := by
          simp [numericWord, hu]
        simp [wtnStep, hf, hu, hnw, ih]

lemma wtnRun_seen (raw : String) :
    (wtnRun raw).2.2 = recognizesNumericWord raw := by
  unfold wtnRun recognizesNumericWord
  rw [wtnFoldl_seen]
  simp

/-! The ledger data model.  Employee and transaction records as stored in
the state object of src/app.js (and the identical shapes in part_000 and
part_001).  Nullable string fields are modelled as strings with the
empty string for null. -/

inductive CutType
  | percent
  | flat
deriving DecidableEq, Repr

/-- TxnType.ret stands for the transaction type string "return". -/
inductive TxnType
  | outgoing
  | ret
deriving DecidableEq, Repr

structure Employee where
  id : String
  name : String
  cutType : CutType
  cutValue : ℚ
deriving DecidableEq, Repr

structure Txn where
  id : String
  type : TxnType
  employeeId : String
  amount : ℚ
  date : String
  time : String
  mode : String
  ref : String
  source : String
  note : String
  cutOverride : Option ℚ
deriving DecidableEq, Repr

structure AppState where
  employees : List Employee
  transactions : List Txn
deriving DecidableEq, Repr

/-! Association lists standing for JS objects and Maps keyed by strings
or numbers: insertion order is preserved, assigning to an existing key
overwrites in place. -/

def alistGet {α β : Type} [DecidableEq α] (m : List (α × β)) (k : α) : Option β :=
  (m.find? (fun kv => decide (kv.1 = k))).map (fun kv => kv.2)

def alistSet {α β : Type} [DecidableEq α] (m : List (α × β)) (k : α) (v : β) :
    List (α × β) :=
  match m with
  | [] => [(k, v)]
  | kv :: rest => if kv.1 = k then (k, v) :: rest else kv :: alistSet rest k v

lemma alistGet_nil {α β : Type} [DecidableEq α] (k : α) :
    alistGet ([] : List (α × β)) k = none := rfl

lemma alistGet_cons {α β : Type} [DecidableEq α] (kv : α × β)
    (rest : List (α × β)) (k : α) :
    alistGet (kv :: rest) k = if kv.1 = k then some kv.2 else alistGet rest k := by
  unfold alistGet
  by_cases h : kv.1 = k
  · rw [List.find?_cons_of_pos _ (by simp [h]), if_pos h]; rfl
  · rw [List.find?_cons_of_neg _ (by simp [h]), if_neg h]

lemma alistGet_alistSet {α β : Type} [DecidableEq α]
    (m : List (α × β)) (k k' : α) (v : β) :
    alistGet (alistSet m k v) k' = if k' = k then some v else alistGet m k' := by
  induction m with
  | nil =>
    by_cases h : k' = k
    · subst h; simp [alistSet, alistGet_cons]
    · have h1 : ¬(k = k') := fun hh => h hh.symm
      simp [alistSet, alistGet_cons, alistGet_nil, h1, h]
  | cons kv rest ih =>
    by_cases hk : kv.1 = k
    · simp only [alistSet, if_pos hk]
      by_cases h : k' = k
      · subst h
        rw [alistGet_cons]; simp
      · have h1 : ¬(k = k') := fun hh => h hh.symm
        have h2 : ¬(kv.1 = k') := by rw [hk]; exact h1
        rw [alistGet_cons, alistGet_cons]
        simp [h1, h2, h]
    · simp only [alistSet, if_neg hk]
      rw [alistGet_cons, alistGet_cons]
      by_cases hkv : kv.1 = k'
      · have h : ¬(k' = k) := fun hh => hk (hkv.trans hh)
        simp [hkv, h]
      · simp [hkv, ih]

/-! The per-employee summary computed on every render:
computeSummary and computeOverallTotals (src/app.js lines 187-214, and
the identical copies at src/app.js lines 1136-1160, part_000 lines
355-378, part_001 lines 392-415). -/

structure OutRec where
  txn : Txn
  computedCut : ℚ
  expectedReturn : ℚ
deriving DecidableEq, Repr

structure EmpSummary where
  name : String
  cutType : CutType
  cutValue : ℚ
  outgoings : List OutRec
  totalSent : ℚ
  totalCut : ℚ
  totalExpected : ℚ
deriving DecidableEq, Repr

abbrev PerMap := List (String × EmpSummary)

def freshSummary (e : Employee) : EmpSummary :=
  { name := e.name, cutType := e.cutType, cutValue := e.cutValue,
    outgoings := [], totalSent := 0, totalCut := 0, totalExpected := 0 }

def initPer (es : List Employee) : PerMap :=
  es.foldl (fun m e => alistSet m e.id (freshSummary e)) []

/-- The forEach body processing one outgoing transaction: skip when the
employeeId is absent from the per map, otherwise compute the cut
(cutOverride if non-null, else percent-of-amount or flat value), the
clamped expected return, and accumulate. -/
def procTxn (m : PerMap) (t : Txn) : PerMap :=
  match alistGet m t.employeeId with
  | none => m
  | some s =>
    let cut := match t.cutOverride with
      | some c => c
      | none => if s.cutType = CutType.percent then t.amount * (s.cutValue / 100) else s.cutValue
    let expected := max 0 (t.amount - cut)
    alistSet m t.employeeId
      { s with
        outgoings := s.outgoings ++ [{ txn := t, computedCut := cut, expectedReturn := expected }],
        totalSent := s.totalSent + t.amount,
        totalCut := s.totalCut + cut,
        totalExpected := s.totalExpected + expected }

def computeSummary (st : AppState) : PerMap :=
  (st.transactions.filter (fun t => decide (t.type = TxnType.outgoing))).foldl
    procTxn (initPer st.employees)

structure Totals where
  totalSent : ℚ
  totalExpected : ℚ
  totalReturned : ℚ
  overallBalance : ℚ
deriving DecidableEq, Repr

/-- computeOverallTotals: reduce the per map values, sum the amounts of
the return transactions (t.amount is never NaN here, so the JS
t.amount || 0 is t.amount), and take the difference. -/
def computeOverallTotals (st : AppState) : Totals :=
  let per := computeSummary st
  let totalSent := per.foldl (fun a kv => a + kv.2.totalSent) 0
  let totalExpected := per.foldl (fun a kv => a + kv.2.totalExpected) 0
  let totalReturned :=
    (st.transactions.filter (fun t => decide (t.type = TxnType.ret))).foldl
      (fun a t => a + t.amount) 0
  { totalSent := totalSent, totalExpected := totalExpected,
    totalReturned := totalReturned, overallBalance := totalExpected - totalReturned }

/-- The cut rule data the per map holds for an id. -/
def staticGet (m : PerMap) (id : String) : Option (CutType × ℚ) :=
  (alistGet m id).map (fun s => (s.cutType, s.cutValue))

/-- The outgoing records accumulated for an id. -/
def outgoingsOf (m : PerMap) (id : String) : List OutRec :=
  ((alistGet m id).map EmpSummary.outgoings).getD []

lemma procTxn_staticGet (m : PerMap) (t : Txn) (id : String) :
    staticGet (procTxn m t) id = staticGet m id := by
  unfold procTxn
  cases h : alistGet m t.employeeId with
  | none => rfl
  | some s =>
    unfold staticGet
    rw [alistGet_alistSet]
    by_cases hid : id = t.employeeId
    · subst hid; rw [h]; simp
    · simp [hid]

lemma procTxn_outgoings_mem (m : PerMap) (t : Txn) (id : String) (r : OutRec)
    (h : r ∈ outgoingsOf m id) : r ∈ outgoingsOf (procTxn m t) id := by
  unfold procTxn
  cases hs : alistGet m t.employeeId with
  | none => exact h
  | some s =>
    unfold outgoingsOf at h ⊢
    rw [alistGet_alistSet]
    by_cases hid : id = t.employeeId
    · subst hid
      rw [hs] at h
      simp only [if_pos rfl, Option.map_some, Option.getD_some] at *
      exact List.mem_append_left _ h
    · simp [hid]; simpa using h

lemma foldl_staticGet (ts : List Txn) : ∀ (m : PerMap) (id : String),
    staticGet (ts.foldl procTxn m) id = staticGet m id := by
  induction ts with
  | nil => intro m id; rfl
  | cons hd rest ih =>
    intro m id
    simp only [List.foldl_cons]
    rw [ih, procTxn_staticGet]

lemma foldl_outgoings_mem (ts : List Txn) : ∀ (m : PerMap) (id : String) (r : OutRec),
    r ∈ outgoingsOf m id → r ∈ outgoingsOf (ts.foldl procTxn m) id := by
  induction ts with
  | nil => intro m id r h; exact h
  | cons hd rest ih =>
    intro m id r h
    simp only [List.foldl_cons]
    exact ih _ _ _ (procTxn_outgoings_mem m hd id r h)

lemma staticGet_some_alistGet (m : PerMap) (id : String) (ct : CutType) (cv : ℚ)
    (h : staticGet m id = some (ct, cv)) :
    ∃ s, alistGet m id = some s ∧ s.cutType = ct ∧ s.cutValue = cv := by
  unfold staticGet at h
  cases hs : alistGet m id with
  | none => rw [hs] at h; simp at h
  | some s =>
    rw [hs] at h
    simp only [Option.map_some', Option.some.injEq, Prod.mk.injEq] at h
    exact ⟨s, rfl, h.1, h.2⟩

lemma mem_foldl_outgoings (ts : List Txn) : ∀ (m : PerMap) (t : Txn), t ∈ ts →
    ∀ (ct : CutType) (cv : ℚ), staticGet m t.employeeId = some (ct, cv) →
    ∃ r ∈ outgoingsOf (ts.foldl procTxn m) t.employeeId,
      r.txn = t ∧
      r.computedCut = (match t.cutOverride with
        | some c => c
        | none => if ct = CutType.percent then t.amount * (cv / 100) else cv) ∧
      r.expectedReturn = max 0 (t.amount - r.computedCut) := by
  induction ts with
  | nil => intro m t ht; exact absurd ht (List.not_mem_nil t)
  | cons hd rest ih =>
    intro m t ht ct cv hstat
    rcases List.mem_cons.mp ht with rfl | hmem
    · obtain ⟨s, hs, hct, hcv⟩ := staticGet_some_alistGet m t.employeeId ct cv hstat
      refine ⟨{ txn := t,
                computedCut := match t.cutOverride with
                  | some c => c
                  | none => if s.cutType = CutType.percent then t.amount * (s.cutValue / 100) else s.cutValue,
                expectedReturn := max 0 (t.amount - (match t.cutOverride with
                  | some c => c
                  | none => if s.cutType = CutType.percent then t.amount * (s.cutValue / 100) else s.cutValue)) }, ?_, rfl, ?_, rfl⟩
      · simp only [List.foldl_cons]
        apply foldl_outgoings_mem
        unfold procTxn
        rw [hs]
        unfold outgoingsOf
        rw [alistGet_alistSet]
        simp
      · rw [hct, hcv]
    · simp only [List.foldl_cons]
      exact ih (procTxn m hd) t hmem ct cv (by rw [procTxn_staticGet]; exact hstat)

lemma foldl_add_eq_sum {α : Type} (f : α → ℚ) (l : List α) : ∀ a : ℚ,
    l.foldl (fun acc x => acc + f x) a = a + (l.map f).sum := by
  induction l with
  | nil => intro a; simp
  | cons x xs ih => intro a; simp [ih, add_assoc]

/-! Concrete ledgers for the worked examples of claims C1 and C2. -/

def c1TxnPercent : Txn :=
  { id := "t1", type := TxnType.outgoing, employeeId := "e1", amount := 1000,
    date := "", time := "", mode := "", ref := "", source := "", note := "",
    cutOverride := none }

def c1StatePercent : AppState :=
  { employees := [{ id := "e1", name := "Asha", cutType := CutType.percent, cutValue := 10 }],
    transactions := [c1TxnPercent] }

def c1TxnOverride : Txn :=
  { id := "t2", type := TxnType.outgoing, employeeId := "e1", amount := 500,
    date := "", time := "", mode := "", ref := "", source := "", note := "",
    cutOverride := some 1000 }

def c1StateOverride : AppState :=
  { employees := [{ id := "e1", name := "Asha", cutType := CutType.flat, cutValue := 50 }],
    transactions := [c1TxnOverride] }

/-- C1: for every outgoing transaction whose employeeId resolves in the
initialized per-employee map (carrying that employee's cut rule), the
summary holds a record for it whose computedCut is cutOverride when
non-null, else amount times cutValue over 100 for a percent rule, else
cutValue; its expectedReturn is max 0 (amount - cut), hence nonnegative,
and max 0 (amount - cut) is nonnegative for every amount and cut.  In
particular percent 10 on amount 1000 gives cut 100 and expected 900, and
cutOverride 1000 on amount 500 gives expected 0. -/
theorem c1_outgoing_cut_and_clamped_expected :
    (∀ (st : AppState) (t : Txn), t ∈ st.transactions → t.type = TxnType.outgoing →
      ∀ (ct : CutType) (cv : ℚ), staticGet (initPer st.employees) t.employeeId = some (ct, cv) →
      ∃ r ∈ outgoingsOf (computeSummary st) t.employeeId,
        r.txn = t ∧
        r.computedCut = (match t.cutOverride with
          | some c => c
          | none => if ct = CutType.percent then t.amount * (cv / 100) else cv) ∧
        r.expectedReturn = max 0 (t.amount - r.computedCut) ∧
        0 ≤ r.expectedReturn) ∧
    (∀ amount cut : ℚ, 0 ≤ max 0 (amount - cut)) ∧
    outgoingsOf (computeSummary c1StatePercent) "e1" =
      [{ txn := c1TxnPercent, computedCut := 100, expectedReturn := 900 }] ∧
    outgoingsOf (computeSummary c1StateOverride) "e1" =
      [{ txn := c1TxnOverride, computedCut := 1000, expectedReturn := 0 }] := by
  refine ⟨?_, fun amount cut => le_max_left _ _, ?_, ?_⟩
  · intro st t ht htype ct cv hstat
    have hmem : t ∈ st.transactions.filter (fun t => decide (t.type = TxnType.outgoing)) :=
      List.mem_filter.mpr ⟨ht, by simp [htype]⟩
    obtain ⟨r, hr, hrt, hrc, hre⟩ :=
      mem_foldl_outgoings _ (initPer st.employees) t hmem ct cv hstat
    exact ⟨r, hr, hrt, hrc, hre, by rw [hre]; exact le_max_left _ _⟩
  · simp [computeSummary, c1StatePercent, c1TxnPercent, initPer, freshSummary,
      alistSet, alistGet, List.find?, outgoingsOf, procTxn, max_def]
    norm_num
  · simp [computeSummary, c1StateOverride, c1TxnOverride, initPer, freshSummary,
      alistSet, alistGet, List.find?, outgoingsOf, procTxn, max_def]
    norm_num

/-- Witness for C1: the universally quantified part applied to the
concrete percent-rule ledger, every hypothesis discharged by
computation. -/
theorem c1_witness :
    c1TxnPercent ∈ c1StatePercent.transactions ∧
    (∃ r ∈ outgoingsOf (computeSummary c1StatePercent) c1TxnPercent.employeeId,
      r.txn = c1TxnPercent ∧
      r.computedCut = (match c1TxnPercent.cutOverride with
        | some c => c
        | none => if CutType.percent = CutType.percent then
            c1TxnPercent.amount * ((10 : ℚ) / 100) else (10 : ℚ)) ∧
      r.expectedReturn = max 0 (c1TxnPercent.amount - r.computedCut) ∧
      0 ≤ r.expectedReturn) :=
  ⟨by decide,
   c1_outgoing_cut_and_clamped_expected.1 c1StatePercent c1TxnPercent (by decide) (by decide)
     CutType.percent 10 (by decide)⟩

def c2State : AppState :=
  { employees :=
      [{ id := "e1", name := "Asha", cutType := CutType.percent, cutValue := 10 },
       { id := "e2", name := "Bela", cutType := CutType.percent, cutValue := 30 }],
    transactions :=
      [{ id := "t1", type := TxnType.outgoing, employeeId := "e1", amount := 1000,
         date := "", time := "", mode := "", ref := "", source := "", note := "", cutOverride := none },
       { id := "t2", type := TxnType.outgoing, employeeId := "e2", amount := 1000,
         date := "", time := "", mode := "", ref := "", source := "", note := "", cutOverride := none },
       { id := "t3", type := TxnType.ret, employeeId := "", amount := 500,
         date := "", time := "", mode := "", ref := "", source := "", note := "", cutOverride := none }] }

/-- C2: computeOverallTotals returns totalReturned equal to the flat sum
of the amounts of all return-type transactions, overallBalance equal to
totalExpected minus totalReturned, and totalExpected equal to the sum of
the per-employee totalExpected values; on the two-employee example with
expected 900 and 700 and returns summing to 500 the overall balance is
1100. -/
theorem c2_overall_totals :
    (∀ st : AppState,
      (computeOverallTotals st).totalReturned =
        ((st.transactions.filter (fun t => decide (t.type = TxnType.ret))).map
          (fun t => t.amount)).sum ∧
      (computeOverallTotals st).overallBalance =
        (computeOverallTotals st).totalExpected - (computeOverallTotals st).totalReturned ∧
      (computeOverallTotals st).totalExpected =
        ((computeSummary st).map (fun kv => kv.2.totalExpected)).sum) ∧
    (alistGet (computeSummary c2State) "e1").map EmpSummary.totalExpected = some 900 ∧
    (alistGet (computeSummary c2State) "e2").map EmpSummary.totalExpected = some 700 ∧
    (computeOverallTotals c2State).totalReturned = 500 ∧
    (computeOverallTotals c2State).overallBalance = 1100 := by
  refine ⟨fun st => ⟨?_, rfl, ?_⟩, ?_, ?_, ?_, ?_⟩
  · simp only [computeOverallTotals]
    rw [foldl_add_eq_sum (fun t : Txn => t.amount)]
    simp
  · simp only [computeOverallTotals]
    rw [foldl_add_eq_sum (fun kv : String × EmpSummary => kv.2.totalExpected)]
    simp
  · simp [computeSummary, c2State, initPer, freshSummary, alistSet, alistGet,
      List.find?, procTxn, max_def]
    norm_num
  · simp [computeSummary, c2State, initPer, freshSummary, alistSet, alistGet,
      List.find?, procTxn, max_def]
    norm_num
  · simp [computeOverallTotals, computeSummary, c2State, initPer, freshSummary,
      alistSet, alistGet, List.find?, procTxn, max_def]
  · simp [computeOverallTotals, computeSummary, c2State, initPer, freshSummary,
      alistSet, alistGet, List.find?, procTxn, max_def]
    norm_num

/-! The statement matcher applyStatementMatches and its date
normalization (part_000 lines 804-844). -/

/-- A canonical statement entry as produced by the row and line
mappers. -/
structure Entry where
  date : String
  amount : ℚ
  desc : String
  ref : String
  mode : String
deriving DecidableEq, Repr

def sepC (c : Char) : Bool := c = '/' || c = '-'

/-- One attempt of the digits-separator-digits-separator-year date regex
with the month part of length n, returning the three captured groups. -/
def dmyTail (dd : List Char) (cs : List Char) (n : Nat) :
    Option (List Char × List Char × List Char) :=
  let mm := cs.take n
  if (mm.length == n) && mm.all digitC then
    match cs.drop n with
    | s2 :: rest2 =>
      if sepC s2 then
        let yy := (rest2.takeWhile digitC).take 4
        if 2 ≤ yy.length then some (dd, mm, yy) else none
      else none
    | [] => none
  else none

/-- One attempt of the date regex at this position with the day part of
length n. -/
def dmyHereD (cs : List Char) (n : Nat) :
    Option (List Char × List Char × List Char) :=
  let dd := cs.take n
  if (dd.length == n) && dd.all digitC then
    match cs.drop n with
    | s1 :: rest1 =>
      if sepC s1 then
        match dmyTail dd rest1 2 with
        | some r => some r
        | none => dmyTail dd rest1 1
      else none
    | [] => none
  else none

/-- The date regex of one-or-two digits, slash-or-dash, one-or-two
digits, slash-or-dash, two-to-four digits, tried at this position with
the greedy backtracking order of JS (longer day and month parts
first, the year part greedy up to four digits). -/
def dmyHere (cs : List Char) : Option (List Char × List Char × List Char) :=
  match dmyHereD cs 2 with
  | some r => some r
  | none => dmyHereD cs 1

/-- Leftmost match of the numeric date pattern. -/
def findDMY : List Char → Option (List Char × List Char × List Char)
  | [] => none
  | c :: rest =>
    match dmyHere (c :: rest) with
    | some r => some r
    | none => findDMY rest

/-- One attempt of the digits-whitespace-monthname-whitespace-year date
regex at this position with the day part of length n. -/
def dmonyHereD (cs : List Char) (n : Nat) :
    Option (List Char × List Char × List Char) :=
  let dd := cs.take n
  if (dd.length == n) && dd.all digitC then
    let rest1 := cs.drop n
    let ws := rest1.takeWhile jsWs
    if ws.isEmpty then none
    else
      let rest2 := rest1.drop ws.length
      let mon := rest2.takeWhile alphaC
      if (3 ≤ mon.length) && (mon.length ≤ 9) then
        let rest3 := rest2.drop mon.length
        let ws2 := rest3.takeWhile jsWs
        if ws2.isEmpty then none
        else
          let yy := (((rest3.drop ws2.length).takeWhile digitC)).take 4
          if 2 ≤ yy.length then some (dd, mon, yy) else none
      else none
  else none

def dmonyHere (cs : List Char) : Option (List Char × List Char × List Char) :=
  match dmonyHereD cs 2 with
  | some r => some r
  | none => dmonyHereD cs 1

/-- Leftmost match of the day-monthname-year pattern. -/
def findDMonY : List Char → Option (List Char × List Char × List Char)
  | [] => none
  | c :: rest =>
    match dmonyHere (c :: rest) with
    | some r => some r
    | none => findDMonY rest

/-- The three-letter month name table of toKey; 0 models a failed lookup
(whose stringified empty value pads to 00 exactly like the digits of
0). -/
def monthNum (mon : List Char) : Nat :=
  match String.mk (lowerList (mon.take 3)) with
  | "jan" => 1 | "feb" => 2 | "mar" => 3 | "apr" => 4
  | "may" => 5 | "jun" => 6 | "jul" => 7 | "aug" => 8
  | "sep" => 9 | "oct" => 10 | "nov" => 11 | "dec" => 12
  | _ => 0

/-- JS String.prototype.padStart(2, "0"). -/
def pad2 (s : String) : String :=
  if 2 ≤ s.length then s else if s.length = 1 then "0" ++ s else "00"

/-- The two-digit-year fixup: a two character year gets a 20 put in
front, anything else is kept as is. -/
def yearFix (yy : List Char) : String :=
  if yy.length = 2 then "20" ++ String.mk yy else String.mk yy

/-- toKey of applyStatementMatches: normalize a free-form date string to
a year-month-day key, or the empty string when neither date pattern
matches. -/
def toKey (d : String) : String :=
  if d = "" then ""
  else
    match findDMY d.data with
    | some (dd, mm, yy) =>
      yearFix yy ++ "-" ++ pad2 (String.mk mm) ++ "-" ++ pad2 (String.mk dd)
    | none =>
      match findDMonY d.data with
      | some (dd, mon, yy) =>
        yearFix yy ++ "-" ++ pad2 (toString (monthNum mon)) ++ "-" ++ pad2 (String.mk dd)
      | none => ""

/-! The JS Date parse of the normalized keys, modelled on the strings
toKey can emit: a four digit year with a valid month and day-of-month
parses to a day count (so date differences in milliseconds are exactly
day differences times 86400000); anything else is an Invalid Date whose
NaN arithmetic makes every comparison false. -/

def isLeap (y : Nat) : Bool := (y % 4 == 0 && y % 100 != 0) || y % 400 == 0

def daysBefore (y m : Nat) : Nat :=
  [0, 31, 59, 90, 120, 151, 181, 212, 243, 273, 304, 334].getD (m - 1) 0 +
    (if 2 < m && isLeap y then 1 else 0)

def daysInMonth (y m : Nat) : Nat :=
  [31, 28, 31, 30, 31, 30, 31, 31, 30, 31, 30, 31].getD (m - 1) 0 +
    (if m == 2 && isLeap y then 1 else 0)

def natOfDigits (cs : List Char) : Nat :=
  cs.foldl (fun a c => 10 * a + (c.toNat - '0'.toNat)) 0

/-- Days since the epoch of the proleptic Gregorian calendar (any fixed
origin works, only differences matter). -/
def dayNumber (y m d : Nat) : Nat :=
  365 * (y - 1) + (y - 1) / 4 - (y - 1) / 100 + (y - 1) / 400 + daysBefore y m + d

def splitDashAux : List Char → List Char → List (List Char)
  | [], cur => [cur.reverse]
  | c :: rest, cur =>
    if c = '-' then cur.reverse :: splitDashAux rest [] else splitDashAux rest (c :: cur)

def parseKey (k : String) : Option Nat :=
  match splitDashAux k.data [] with
  | [ys, ms, ds] =>
    if (ys.length == 4) && ys.all digitC && (ms.length == 2) && ms.all digitC &&
        (ds.length == 2) && ds.all digitC then
      let y := natOfDigits ys
      let m := natOfDigits ms
      let d := natOfDigits ds
      if (1 ≤ m) && (m ≤ 12) && (1 ≤ d) && (d ≤ daysInMonth y m) then
        some (dayNumber y m d)
      else none
    else none
  | _ => none

/-- within2days of applyStatementMatches: false on an empty key, false
when either key is an Invalid Date, else the absolute difference is at
most two days. -/
def within2days (a b : String) : Bool :=
  if a = "" || b = "" then false
  else
    match parseKey a, parseKey b with
    | some x, some y => decide (((x : Int) - (y : Int)).natAbs ≤ 2)
    | _, _ => false

/-- One step of the amount bucketing: create the bucket when absent,
push the entry at its end. -/
def bucketAdd (m : List (ℚ × List Entry)) (e : Entry) : List (ℚ × List Entry) :=
  match alistGet m e.amount with
  | some l => alistSet m e.amount (l ++ [e])
  | none => alistSet m e.amount [e]

def buildByAmount (entries : List Entry) : List (ℚ × List Entry) :=
  entries.foldl bucketAdd []

/-- byAmount.get(amount) with the empty default. -/
def bucketGet (m : List (ℚ × List Entry)) (a : ℚ) : List Entry :=
  (alistGet m a).getD []

/-- The candidate lookup and first-within-2-days acceptance for one
ledger transaction (the hit variable of applyStatementMatches). -/
def acceptedHit (entries : List Entry) (t : Txn) : Option Entry :=
  if t.type ≠ TxnType.ret then none
  else
    let candidates := bucketGet (buildByAmount entries) t.amount
    if candidates.isEmpty then none
    else candidates.find? (fun c => within2days (toKey t.date) (toKey c.date))

/-- The backfill of one matched return transaction: fill ref, mode and
source (desc truncated to its first 140 units) only when the field is
empty and the statement side is not, and report whether anything
changed. -/
def backfill (t : Txn) (hit : Entry) : Txn × Bool :=
  let refChanged := t.ref == "" && hit.ref != ""
  let modeChanged := t.mode == "" && hit.mode != ""
  let srcChanged := t.source == "" && hit.desc != ""
  ({ t with
      ref := if refChanged then hit.ref else t.ref,
      mode := if modeChanged then hit.mode else t.mode,
      source := if srcChanged then String.mk (hit.desc.data.take 140) else t.source },
    refChanged || modeChanged || srcChanged)

/-- The per-transaction body of applyStatementMatches. -/
def matchTxn (entries : List Entry) (t : Txn) : Txn × Bool :=
  match acceptedHit entries t with
  | none => (t, false)
  | some hit => backfill t hit

/-- applyStatementMatches over the transaction list: update every
transaction in place and count the changed ones. -/
def applyStatementMatches (entries : List Entry) (txns : List Txn) : List Txn × Nat :=
  txns.foldl
    (fun acc t =>
      let r := matchTxn entries t
      (acc.1 ++ [r.1], acc.2 + (if r.2 then 1 else 0)))
    ([], 0)

/-- applyStatementMatches at the state level: only state.transactions is
read or written. -/
def applyStatementMatchesS (st : AppState) (entries : List Entry) : AppState × Nat :=
  let r := applyStatementMatches entries st.transactions
  ({ employees := st.employees, transactions := r.1 }, r.2)

lemma bucketGet_bucketAdd (m : List (ℚ × List Entry)) (e : Entry) (a : ℚ) :
    bucketGet (bucketAdd m e) a =
      if a = e.amount then bucketGet m a ++ [e] else bucketGet m a := by
  unfold bucketAdd bucketGet
  cases h : alistGet m e.amount with
  | some l =>
    rw [alistGet_alistSet]
    by_cases ha : a = e.amount
    · subst ha; rw [if_pos rfl, if_pos rfl, h]; simp
    · simp [ha]
  | none =>
    rw [alistGet_alistSet]
    by_cases ha : a = e.amount
    · subst ha; rw [if_pos rfl, if_pos rfl, h]; simp
    · simp [ha]

lemma bucketGet_build (es : List Entry) : ∀ (m : List (ℚ × List Entry)) (a : ℚ),
    bucketGet (es.foldl bucketAdd m) a =
      bucketGet m a ++ es.filter (fun e => decide (e.amount = a)) := by
  induction es with
  | nil => intro m a; simp
  | cons e rest ih =>
    intro m a
    simp only [List.foldl_cons, List.filter_cons]
    rw [ih, bucketGet_bucketAdd]
    by_cases ha : a = e.amount
    · rw [if_pos ha]
      have : decide (e.amount = a) = true := by simp [ha.symm]
      rw [this]
      simp
    · rw [if_neg ha]
      have : decide (e.amount = a) = false := by simp; exact fun hh => ha hh.symm
      rw [this]
      simp

lemma acceptedHit_eq_filter_find (entries : List Entry) (t : Txn)
    (h : t.type = TxnType.ret) :
    acceptedHit entries t =
      (entries.filter (fun e => decide (e.amount = t.amount))).find?
        (fun c => within2days (toKey t.date) (toKey c.date)) := by
  unfold acceptedHit
  rw [if_neg (by simp [h])]
  have hb : bucketGet (buildByAmount entries) t.amount =
      entries.filter (fun e => decide (e.amount = t.amount)) := by
    unfold buildByAmount
    rw [bucketGet_build]
    have : bucketGet [] t.amount = [] := rfl
    rw [this]
    simp
  simp only [hb]
  by_cases he : (entries.filter (fun e => decide (e.amount = t.amount))).isEmpty
  · rw [if_pos he]
    rw [List.isEmpty_iff] at he
    rw [he]
    rfl
  · rw [if_neg he]

lemma parseKey_empty : parseKey "" = none := rfl

lemma within2days_iff (k1 k2 : String) :
    within2days k1 k2 = true ↔
      ∃ n1 n2 : Nat, parseKey k1 = some n1 ∧ parseKey k2 = some n2 ∧
        ((n1 : Int) - (n2 : Int)).natAbs ≤ 2 := by
  unfold within2days
  by_cases h1 : k1 = ""
  · subst h1; simp [parseKey_empty]
  · by_cases h2 : k2 = ""
    · subst h2; simp [parseKey_empty, h1]
    · rw [if_neg (by simp [h1, h2])]
      cases p1 : parseKey k1 with
      | none => simp
      | some x =>
        cases p2 : parseKey k2 with
        | none => simp
        | some y => simp

lemma backfill_fields (t : Txn) (hit : Entry) :
    (backfill t hit).1.id = t.id ∧ (backfill t hit).1.type = t.type ∧
    (backfill t hit).1.employeeId = t.employeeId ∧ (backfill t hit).1.amount = t.amount ∧
    (backfill t hit).1.date = t.date ∧ (backfill t hit).1.time = t.time ∧
    (backfill t hit).1.note = t.note ∧ (backfill t hit).1.cutOverride = t.cutOverride := by
  unfold backfill
  simp

lemma matchTxn_fields (entries : List Entry) (t : Txn) :
    (matchTxn entries t).1.id = t.id ∧ (matchTxn entries t).1.type = t.type ∧
    (matchTxn entries t).1.employeeId = t.employeeId ∧
    (matchTxn entries t).1.amount = t.amount ∧
    (matchTxn entries t).1.date = t.date ∧ (matchTxn entries t).1.time = t.time ∧
    (matchTxn entries t).1.note = t.note ∧
    (matchTxn entries t).1.cutOverride = t.cutOverride := by
  unfold matchTxn
  cases acceptedHit entries t with
  | none => simp
  | some hit => exact backfill_fields t hit

lemma acceptedHit_none_of_not_ret (entries : List Entry) (t : Txn)
    (h : ¬t.type = TxnType.ret) : acceptedHit entries t = none := by
  unfold acceptedHit
  rw [if_pos h]

lemma matchTxn_not_ret (entries : List Entry) (t : Txn)
    (h : ¬t.type = TxnType.ret) : matchTxn entries t = (t, false) := by
  unfold matchTxn
  rw [acceptedHit_none_of_not_ret entries t h]

lemma acceptedHit_congr (entries : List Entry) (t t' : Txn)
    (hty : t'.type = t.type) (ha : t'.amount = t.amount) (hd : t'.date = t.date) :
    acceptedHit entries t' = acceptedHit entries t := by
  unfold acceptedHit
  rw [hty, ha, hd]

lemma strMk_take_ne_empty (s : String) (h : s ≠ "") :
    ({ data := s.data.take 140 } : String) ≠ "" := by
  intro hz
  apply h
  cases s with
  | mk l =>
    cases l with
    | nil => rfl
    | cons c rest =>
      have hlen := congrArg List.length (congrArg String.data hz)
      simp [List.length_take] at hlen

lemma backfill_idem (t : Txn) (hit : Entry) :
    backfill (backfill t hit).1 hit = ((backfill t hit).1, false) := by
  unfold backfill
  by_cases hr : t.ref = "" <;> by_cases hhr : hit.ref = "" <;>
    by_cases hm : t.mode = "" <;> by_cases hhm : hit.mode = "" <;>
      by_cases hs : t.source = "" <;> by_cases hhd : hit.desc = "" <;>
        simp [hr, hhr, hm, hhm, hs, hhd] <;>
          exact strMk_take_ne_empty hit.desc hhd

lemma matchTxn_idem (entries : List Entry) (t : Txn) :
    matchTxn entries ((matchTxn entries t).1) = ((matchTxn entries t).1, false) := by
  cases hhit : acceptedHit entries t with
  | none =>
    have h1 : matchTxn entries t = (t, false) := by unfold matchTxn; rw [hhit]
    rw [h1]
    unfold matchTxn
    rw [hhit]
  | some hit =>
    have h1 : matchTxn entries t = backfill t hit := by unfold matchTxn; rw [hhit]
    have hf := backfill_fields t hit
    have hhit' : acceptedHit entries (matchTxn entries t).1 = some hit := by
      rw [acceptedHit_congr entries t (matchTxn entries t).1
        (matchTxn_fields entries t).2.1 (matchTxn_fields entries t).2.2.2.1
        (matchTxn_fields entries t).2.2.2.2.1]
      exact hhit
    rw [h1] at hhit' ⊢
    unfold matchTxn
    rw [hhit']
    exact backfill_idem t hit

lemma applyStatementMatches_aux (entries : List Entry) (txns : List Txn) :
    ∀ acc : List Txn × Nat,
      txns.foldl
        (fun acc t =>
          let r := matchTxn entries t
          (acc.1 ++ [r.1], acc.2 + (if r.2 then 1 else 0))) acc =
        (acc.1 ++ txns.map (fun t => (matchTxn entries t).1),
         acc.2 + txns.countP (fun t => (matchTxn entries t).2)) := by
  induction txns with
  | nil => intro acc; simp
  | cons hd rest ih =>
    intro acc
    simp only [List.foldl_cons, List.map_cons, List.countP_cons]
    rw [ih]
    refine Prod.ext ?_ ?_
    · simp
    · simp only []
      omega

lemma applyStatementMatches_eq (entries : List Entry) (txns : List Txn) :
    applyStatementMatches entries txns =
      (txns.map (fun t => (matchTxn entries t).1),
       txns.countP (fun t => (matchTxn entries t).2)) := by
  unfold applyStatementMatches
  rw [applyStatementMatches_aux]
  simp

lemma forall2_map {α β : Type} (R : α → β → Prop) (f : α → β) (l : List α)
    (h : ∀ x ∈ l, R x (f x)) : List.Forall₂ R l (l.map f) := by
  induction l with
  | nil => simp
  | cons x xs ih =>
    simp only [List.map_cons]
    exact List.Forall₂.cons (h x (List.mem_cons_self x xs))
      (ih fun y hy => h y (List.mem_cons_of_mem x hy))

lemma backfill_keeps_nonempty (t : Txn) (hit : Entry) :
    (t.ref ≠ "" → (backfill t hit).1.ref = t.ref) ∧
    (t.mode ≠ "" → (backfill t hit).1.mode = t.mode) ∧
    (t.source ≠ "" → (backfill t hit).1.source = t.source) ∧
    ((backfill t hit).1.source = t.source ∨
      (backfill t hit).1.source = { data := hit.desc.data.take 140 }) := by
  refine ⟨fun h => ?_, fun h => ?_, fun h => ?_, ?_⟩
  · simp [backfill, h]
  · simp [backfill, h]
  · simp [backfill, h]
  · by_cases hs : t.source = "" <;> by_cases hd : hit.desc = "" <;>
      simp [backfill, hs, hd]

/-! Concrete return transactions and statement entries for claims C3 and
C4. -/

def c3Entry : Entry :=
  { date := "09/01/2024", amount := 500, desc := "NEFT RETURN FROM CA",
    ref := "UTR12345678", mode := "NEFT" }

def c3EntryFar : Entry :=
  { date := "14/01/2024", amount := 500, desc := "NEFT RETURN FROM CA",
    ref := "UTR12345678", mode := "NEFT" }

def c3TxnDayFirst : Txn :=
  { id := "r1", type := TxnType.ret, employeeId := "", amount := 500,
    date := "10/01/2024", time := "", mode := "", ref := "", source := "",
    note := "", cutOverride := none }

def c3TxnIso : Txn :=
  { id := "r2", type := TxnType.ret, employeeId := "", amount := 500,
    date := "2024-01-10", time := "", mode := "", ref := "", source := "",
    note := "", cutOverride := none }

def c3StateIso : AppState := { employees := [], transactions := [c3TxnIso] }

/-- C3 counterexample: the claim as stated fails on the code.  A return
transaction whose date field is the ISO string 2024-01-10 does not match
a statement entry dated 09/01/2024 with the same amount 500, because the
day-first regex of toKey normalizes 2024-01-10 to 2010-01-24 (it matches
24-01-10 inside the string); the matcher leaves the ledger unchanged and
reports zero updates, where the claim promises a match. -/
theorem c3_counterexample :
    toKey "2024-01-10" = "2010-01-24" ∧
    acceptedHit [c3Entry] c3TxnIso = none ∧
    (applyStatementMatchesS c3StateIso [c3Entry]).2 = 0 ∧
    (applyStatementMatchesS c3StateIso [c3Entry]).1 = c3StateIso := by
  exact ⟨by decide, by decide, by decide, by decide⟩

/-- C3 (amended): for every return-type transaction the matcher looks up
the statement entries of exactly equal amount, in statement order, and
accepts the first whose normalized date lies within two days (absolute
difference, inclusive) of the transaction's normalized date; the
two-day test holds exactly when both keys parse as valid dates at most
two days apart.  The worked example holds with the transaction date
written day-first: a return dated 10/01/2024 with amount 500 matches the
entry dated 09/01/2024 with amount 500 and does not match one dated
14/01/2024 (4 days away); written 2024-01-10 the date mis-normalizes to
2010-01-24 and matches nothing. -/
theorem c3_amount_bucket_and_two_day_window :
    (∀ (entries : List Entry) (t : Txn), t.type = TxnType.ret →
      acceptedHit entries t =
        (entries.filter (fun e => decide (e.amount = t.amount))).find?
          (fun c => within2days (toKey t.date) (toKey c.date))) ∧
    (∀ k1 k2 : String, within2days k1 k2 = true ↔
      ∃ n1 n2 : Nat, parseKey k1 = some n1 ∧ parseKey k2 = some n2 ∧
        ((n1 : Int) - (n2 : Int)).natAbs ≤ 2) ∧
    toKey "10/01/2024" = "2024-01-10" ∧
    toKey "09/01/2024" = "2024-01-09" ∧
    acceptedHit [c3Entry] c3TxnDayFirst = some c3Entry ∧
    acceptedHit [c3EntryFar] c3TxnDayFirst = none ∧
    toKey "2024-01-10" = "2010-01-24" ∧
    acceptedHit [c3Entry] c3TxnIso = none := by
  exact ⟨acceptedHit_eq_filter_find, within2days_iff, by decide, by decide,
    by decide, by decide, by decide, by decide⟩

/-- Witness for C3: the bucket-and-find characterization applied to the
concrete day-first ledger, its hypothesis discharged by computation. -/
theorem c3_witness :
    c3TxnDayFirst.type = TxnType.ret ∧
    acceptedHit [c3Entry, c3EntryFar] c3TxnDayFirst =
      ([c3Entry, c3EntryFar].filter
          (fun e => decide (e.amount = c3TxnDayFirst.amount))).find?
        (fun c => within2days (toKey c3TxnDayFirst.date) (toKey c.date)) :=
  ⟨by decide,
   c3_amount_bucket_and_two_day_window.1 [c3Entry, c3EntryFar] c3TxnDayFirst (by decide)⟩

/-- C4: the matcher backfills only the currently empty ref, mode and
source fields of a matched return transaction (source from the entry
desc truncated to 140 units) and never overwrites a non-empty field;
consequently a second run of applyStatementMatches with the same
statement entries returns the ledger list unchanged with an
updated-count of zero. -/
theorem c4_backfill_only_empty_and_idempotent :
    (∀ (entries : List Entry) (t : Txn),
      (t.ref ≠ "" → (matchTxn entries t).1.ref = t.ref) ∧
      (t.mode ≠ "" → (matchTxn entries t).1.mode = t.mode) ∧
      (t.source ≠ "" → (matchTxn entries t).1.source = t.source) ∧
      ((matchTxn entries t).1.source = t.source ∨
        ∃ hit, acceptedHit entries t = some hit ∧
          (matchTxn entries t).1.source = { data := hit.desc.data.take 140 })) ∧
    (∀ (entries : List Entry) (txns : List Txn),
      applyStatementMatches entries (applyStatementMatches entries txns).1 =
        ((applyStatementMatches entries txns).1, 0)) := by
  constructor
  · intro entries t
    cases hhit : acceptedHit entries t with
    | none =>
      have h1 : matchTxn entries t = (t, false) := by unfold matchTxn; rw [hhit]
      rw [h1]
      exact ⟨fun _ => rfl, fun _ => rfl, fun _ => rfl, Or.inl rfl⟩
    | some hit =>
      have h1 : matchTxn entries t = backfill t hit := by unfold matchTxn; rw [hhit]
      rw [h1]
      obtain ⟨k1, k2, k3, k4⟩ := backfill_keeps_nonempty t hit
      refine ⟨k1, k2, k3, ?_⟩
      rcases k4 with h | h
      · exact Or.inl h
      · exact Or.inr ⟨hit, rfl, h⟩
  · intro entries txns
    rw [applyStatementMatches_eq, applyStatementMatches_eq]
    refine Prod.ext ?_ ?_
    · simp only [List.map_map]
      apply List.map_congr_left
      intro t _
      show (matchTxn entries ((matchTxn entries t).1)).1 = (matchTxn entries t).1
      rw [matchTxn_idem]
    · simp only [List.countP_map]
      rw [List.countP_eq_zero]
      intro t _
      show ¬(matchTxn entries ((matchTxn entries t).1)).2 = true
      rw [matchTxn_idem]
      simp

def c4Entry : Entry :=
  { date := "09/01/2024", amount := 500, desc := "CA RETURN",
    ref := "NEWREF123", mode := "UPI" }

def c4Txn : Txn :=
  { id := "r3", type := TxnType.ret, employeeId := "", amount := 500,
    date := "10/01/2024", time := "", mode := "", ref := "KEEPME",
    source := "", note := "", cutOverride := none }

/-- Witness for C4: the never-overwrite part applied to a matched return
transaction whose ref is already filled, the hypothesis discharged by
computation. -/
theorem c4_witness :
    c4Txn.ref ≠ "" ∧ (matchTxn [c4Entry] c4Txn).1.ref = c4Txn.ref :=
  ⟨by decide,
   (c4_backfill_only_empty_and_idempotent.1 [c4Entry] c4Txn).1 (by decide)⟩

/-- C9: applyStatementMatches never touches the employees list, never
adds or removes transactions, leaves every non-return transaction
exactly as it was, and on return transactions preserves id, type,
amount, date, time, note, employeeId and cutOverride, so only ref, mode
and source can change. -/
theorem c9_statement_matcher_frame :
    ∀ (st : AppState) (entries : List Entry),
      (applyStatementMatchesS st entries).1.employees = st.employees ∧
      (applyStatementMatchesS st entries).1.transactions.length =
        st.transactions.length ∧
      List.Forall₂
        (fun t t' =>
          t'.id = t.id ∧ t'.type = t.type ∧ t'.amount = t.amount ∧
          t'.date = t.date ∧ t'.time = t.time ∧ t'.note = t.note ∧
          t'.employeeId = t.employeeId ∧ t'.cutOverride = t.cutOverride ∧
          (t.type ≠ TxnType.ret → t' = t))
        st.transactions (applyStatementMatchesS st entries).1.transactions := by
  intro st entries
  have htr : (applyStatementMatchesS st entries).1.transactions =
      st.transactions.map (fun t => (matchTxn entries t).1) := by
    simp [applyStatementMatchesS, applyStatementMatches_eq]
  refine ⟨rfl, ?_, ?_⟩
  · rw [htr, List.length_map]
  · rw [htr]
    apply forall2_map
    intro t _
    obtain ⟨h1, h2, h3, h4, h5, h6, h7, h8⟩ := matchTxn_fields entries t
    exact ⟨h1, h2, h4, h5, h6, h7, h3, h8,
      fun hty => by rw [matchTxn_not_ret entries t hty]⟩

/-! Claims C5 and C6: the two revisions of wordsToNumber. -/

/-- C5 counterexample: the claim as stated fails on the zero-check
revisions of the code.  The word zero is a recognized numeric word, yet
the wordsToNumber of src/app.js 1031-1048 (and part_000 250-267,
part_001 287-304), whose final return is seen question-mark total-or-null,
yields null on the input zero instead of the parsed total 0. -/
theorem c5_counterexample :
    numericWord "zero" = true ∧ recognizesNumericWord "zero" = true ∧
    wordsToNumber_zc "zero" = none := by
  exact ⟨by decide, by decide, by decide⟩

/-- C5 (amended): the wordsToNumber at src/app.js 75-91 returns null
exactly when no unit, tens or scale word is recognized in the input, and
returns the parsed total even when it is zero, so wordsToNumber "zero"
is 0 there; the revisions at src/app.js 1031-1048, part_000 250-267 and
part_001 287-304 apply an additional zero check and return null exactly
when no numeric word is recognized or the parsed total is zero, so
there wordsToNumber "zero" is null. -/
theorem c5_null_exactly_when_no_numeric_word :
    (∀ raw : String, wordsToNumber raw = none ↔ recognizesNumericWord raw = false) ∧
    wordsToNumber "zero" = some 0 ∧
    (∀ raw : String, wordsToNumber_zc raw = none ↔
      (recognizesNumericWord raw = false ∨ (wtnRun raw).1 + (wtnRun raw).2.1 = 0)) ∧
    wordsToNumber_zc "zero" = none := by
  refine ⟨?_, by decide, ?_, by decide⟩
  · intro raw
    unfold wordsToNumber
    by_cases h : raw = ""
    · subst h
      have : recognizesNumericWord "" = false := by decide
      simp [this]
    · rw [if_neg h, wtnRun_seen]
      cases hrec : recognizesNumericWord raw <;> simp
  · intro raw
    unfold wordsToNumber_zc
    by_cases h : raw = ""
    · subst h
      have : recognizesNumericWord "" = false := by decide
      simp [this]
    · rw [if_neg h, wtnRun_seen]
      cases hrec : recognizesNumericWord raw
      · simp
      · simp only [if_true]
        by_cases hz : (wtnRun raw).1 + (wtnRun raw).2.1 = 0 <;> simp [hz]

/-- C6: the spelled-number parser on the three specified inputs, for
both revisions of wordsToNumber (they agree on all three). -/
theorem c6_words_to_number_examples :
    wordsToNumber "two lakh fifty" = some 200050 ∧
    wordsToNumber "five hundred" = some 500 ∧
    wordsToNumber "" = none ∧
    wordsToNumber_zc "two lakh fifty" = some 200050 ∧
    wordsToNumber_zc "five hundred" = some 500 ∧
    wordsToNumber_zc "" = none := by
  exact ⟨by decide, by decide, by decide, by decide, by decide, by decide⟩

/-! Claim C10: mapToEmployeeId (src/app.js lines 169-174; the
addEmployeeBtn handler at lines 1570-1574 creates employees with uid()
ids and an empty name). -/

/-- mapToEmployeeId: empty string on a falsy counterparty, else the id
of the first employee whose lowercased name is a substring of the
lowercased counterparty, else the empty string. -/
def mapToEmployeeId (emps : List Employee) (counterparty : String) : String :=
  if counterparty = "" then ""
  else
    match emps.find? (fun e => strIncl (lowerList e.name.data) (lowerList counterparty.data)) with
    | some e => e.id
    | none => ""

lemma strIncl_nil (s : List Char) : strIncl [] s = true := by
  cases s <;> rfl

lemma find?_first {α : Type} (p : α → Bool) (l : List α) (e : α)
    (h : l.find? p = some e) :
    ∃ pre post, l = pre ++ e :: post ∧ p e = true ∧ ∀ x ∈ pre, p x = false := by
  induction l with
  | nil => simp at h
  | cons a rest ih =>
    cases hpa : p a with
    | false =>
      rw [List.find?_cons_of_neg _ (by simp [hpa])] at h
      obtain ⟨pre, post, heq, hpe, hpre⟩ := ih h
      refine ⟨a :: pre, post, by rw [heq]; rfl, hpe, ?_⟩
      intro x hx
      rcases List.mem_cons.mp hx with rfl | hx
      · exact hpa
      · exact hpre x hx
    | true =>
      rw [List.find?_cons_of_pos _ hpa] at h
      injection h with h
      subst h
      exact ⟨[], rest, rfl, hpa, by simp⟩

/-- C10: for a non-empty counterparty, mapToEmployeeId returns the id of
the first employee in list order whose lowercased name is a substring of
the lowercased counterparty, and the empty string when no employee
matches; the empty string is a substring of every string, so an
empty-named employee matches every counterparty, and when some employee
has an empty name (and employee ids are non-empty, as uid() produces)
the result is never the empty string. -/
theorem c10_first_substring_employee :
    (∀ (emps : List Employee) (cp : String), cp ≠ "" →
      (∃ e ∈ emps, strIncl (lowerList e.name.data) (lowerList cp.data) = true) →
      ∃ e pre post, emps = pre ++ e :: post ∧
        strIncl (lowerList e.name.data) (lowerList cp.data) = true ∧
        (∀ x ∈ pre, strIncl (lowerList x.name.data) (lowerList cp.data) = false) ∧
        mapToEmployeeId emps cp = e.id) ∧
    (∀ (emps : List Employee) (cp : String), cp ≠ "" →
      (∀ e ∈ emps, strIncl (lowerList e.name.data) (lowerList cp.data) = false) →
      mapToEmployeeId emps cp = "") ∧
    (∀ s : List Char, strIncl [] s = true) ∧
    (∀ (emps : List Employee) (cp : String), cp ≠ "" →
      (∃ e ∈ emps, e.name = "") →
      (∀ e ∈ emps, e.id ≠ "") →
      mapToEmployeeId emps cp ≠ "") := by
  have hfind : ∀ (emps : List Employee) (cp : String),
      (∃ e ∈ emps, strIncl (lowerList e.name.data) (lowerList cp.data) = true) →
      ∃ e, emps.find? (fun e => strIncl (lowerList e.name.data) (lowerList cp.data)) = some e := by
    intro emps cp hex
    have : (emps.find? (fun e => strIncl (lowerList e.name.data) (lowerList cp.data))).isSome := by
      rw [List.find?_isSome]
      obtain ⟨e, he, hpe⟩ := hex
      exact ⟨e, he, hpe⟩
    exact Option.isSome_iff_exists.mp this
  refine ⟨?_, ?_, strIncl_nil, ?_⟩
  · intro emps cp hcp hex
    obtain ⟨e, he⟩ := hfind emps cp hex
    obtain ⟨pre, post, heq, hpe, hpre⟩ := find?_first _ emps e he
    refine ⟨e, pre, post, heq, hpe, hpre, ?_⟩
    unfold mapToEmployeeId
    rw [if_neg hcp, he]
  · intro emps cp hcp hall
    unfold mapToEmployeeId
    rw [if_neg hcp]
    have : emps.find? (fun e => strIncl (lowerList e.name.data) (lowerList cp.data)) = none := by
      rw [List.find?_eq_none]
      intro e he
      simp [hall e he]
    rw [this]
  · intro emps cp hcp hname hids
    have hex : ∃ e ∈ emps, strIncl (lowerList e.name.data) (lowerList cp.data) = true := by
      obtain ⟨e, he, hn⟩ := hname
      refine ⟨e, he, ?_⟩
      rw [hn]
      exact strIncl_nil _
    obtain ⟨e, he⟩ := hfind emps cp hex
    have hmem : e ∈ emps := List.mem_of_find?_eq_some he
    unfold mapToEmployeeId
    rw [if_neg hcp, he]
    exact hids e hmem

def c10Emps : List Employee :=
  [{ id := "e1", name := "Bob", cutType := CutType.percent, cutValue := 10 },
   { id := "e2", name := "", cutType := CutType.percent, cutValue := 10 }]

/-- Witness for C10: the empty-named-employee clause applied to a
concrete list, every hypothesis discharged by computation. -/
theorem c10_witness :
    ("alice" : String) ≠ "" ∧ mapToEmployeeId c10Emps "alice" ≠ "" :=
  ⟨by decide,
   c10_first_substring_employee.2.2.2 c10Emps "alice" (by decide) (by decide) (by decide)⟩

/-! Claim C8: the statement row mapper mapRowToEntry (part_000 lines
735-764).  A row is the ordered list of header-value pairs of the JS
row object; cell values are modelled as the strings the code coerces
them to. -/

abbrev Row := List (String × String)

/-- norm of part_000 line 735: stringify, lowercase, trim. -/
def normHeader (s : String) : String := { data := trimList (lowerList s.data) }

/-- by(k): the value of the first column whose normalized header
contains the fragment k. -/
def byCol (row : Row) (k : String) : Option String :=
  (row.find? (fun kv => strIncl k.data (normHeader kv.1).data)).map (fun kv => kv.2)

/-- JS a || b over string-or-undefined operands: the first operand when
it is a truthy (non-empty) string, else the second operand as is. -/
def jsOrS (a b : Option String) : Option String :=
  match a with
  | some s => if s = "" then b else some s
  | none => b

/-- String(x || ""): the string itself when defined, else empty. -/
def stringOfOpt (o : Option String) : String := o.getD ""

/-- JS Number on the plain decimal strings statement cells hold: blank
is 0, an optional sign with digits and an optional fraction parses, and
anything else (the code never feeds it hex or exponent forms) is NaN,
modelled as none. -/
def jsNumber (s : String) : Option ℚ :=
  let t := trimList s.data
  if t.isEmpty then some 0
  else
    let body : Bool × List Char :=
      match t with
      | '-' :: r => (true, r)
      | '+' :: r => (false, r)
      | _ => (false, t)
    let ip := body.2.takeWhile digitC
    match body.2.drop ip.length with
    | [] =>
      if ip.isEmpty then none
      else some (if body.1 then -(natOfDigits ip : ℚ) else (natOfDigits ip : ℚ))
    | '.' :: fr =>
      let fp := fr.takeWhile digitC
      if ¬(fr.drop fp.length).isEmpty then none
      else if ip.isEmpty && fp.isEmpty then none
      else
        let v := (natOfDigits ip : ℚ) + (natOfDigits fp : ℚ) / ((10 : ℚ) ^ fp.length)
        some (if body.1 then -v else v)
    | _ => none

/-- parseFloat on a string already stripped to digits and dots: leading
digits then an optional dot and fraction digits (parsing stops at any
second dot); a leading dot needs at least one following digit; an empty
or dot-only string is NaN. -/
def parseFloatDigitsDots (cs : List Char) : Option ℚ :=
  let ip := cs.takeWhile digitC
  if ip.isEmpty then
    match cs with
    | '.' :: rest =>
      let fp := rest.takeWhile digitC
      if fp.isEmpty then none
      else some ((natOfDigits fp : ℚ) / ((10 : ℚ) ^ fp.length))
    | _ => none
  else
    match cs.drop ip.length with
    | '.' :: rest =>
      let fp := rest.takeWhile digitC
      some ((natOfDigits ip : ℚ) + (natOfDigits fp : ℚ) / ((10 : ℚ) ^ fp.length))
    | _ => some (natOfDigits ip : ℚ)

/-- The cr && Number(cr) > 0 test of the credit/debit fallback. -/
def truthyPos (o : Option String) : Bool :=
  match o with
  | some s =>
    (s != "") &&
      (match jsNumber s with
       | some q => decide (0 < q)
       | none => false)
  | none => false

/-- The amount resolution of mapRowToEntry: the truthy-or chain over the
amount, credit, cr amount and deposit columns; when the chain value is
undefined, the credit/debit fallback preferring a positive credit then a
positive debit; the chosen cell is stripped to digits and dots, parsed
with parseFloat, and a NaN or zero result is null. -/
def resolveAmount (row : Row) : Option ℚ :=
  let rawAmt := jsOrS (byCol row "amount") (jsOrS (byCol row "credit")
    (jsOrS (byCol row "cr amount") (byCol row "deposit")))
  let amt : Option String :=
    match rawAmt with
    | none =>
      let cr := byCol row "credit"
      let dr := byCol row "debit"
      if truthyPos cr then cr else if truthyPos dr then dr else none
    | some s => some s
  match parseFloatDigitsDots ((stringOfOpt amt).data.filter (fun c => digitC c || c = '.')) with
  | none => none
  | some v => if v = 0 then none else some v

def alnumC (c : Char) : Bool := alphaC c || digitC c

/-- Leftmost greedy match of eight or more alphanumeric characters. -/
def findAlnumRun8 : List Char → Option (List Char)
  | [] => none
  | c :: rest =>
    let run := (c :: rest).takeWhile alnumC
    if 8 ≤ run.length then some run else findAlnumRun8 rest

/-- The reference filter of mapRowToEntry: the first alphanumeric token
of length at least eight, or empty. -/
def firstAlnumRun8 (s : String) : String :=
  { data := (findAlnumRun8 s.data).getD [] }

def modeWords : List String := ["UPI", "NEFT", "IMPS", "RTGS", "PhonePe", "GPay", "Paytm"]

/-- Case-insensitive keyword at the head of the list with a trailing
word boundary. -/
def kwHere (big : List Char) (w : List Char) : Bool :=
  ((big.take w.length).length == w.length) &&
  (lowerList (big.take w.length) == lowerList w) &&
  (match big.drop w.length with
   | [] => true
   | c :: _ => !wordC c)

/-- Scan for the first word-boundary-delimited mode keyword, carrying
whether a word character immediately precedes the position; the matched
slice keeps its original case just as the JS match result does. -/
def modeScan : List Char → Bool → Option (List Char)
  | [], _ => none
  | c :: rest, prevW =>
    if !prevW then
      match (modeWords.map (fun w => w.data)).findSome?
        (fun w => if kwHere (c :: rest) w then some ((c :: rest).take w.length) else none) with
      | some r => some r
      | none => modeScan rest (wordC c)
    else modeScan rest (wordC c)

def modeKeyword (desc : String) : String :=
  { data := (modeScan desc.data false).getD [] }

/-- mapRowToEntry: resolve date, amount, description, reference and mode
from a heterogeneous statement row, and discard the row when no amount
resolves. -/
def mapRowToEntry (row : Row) : Option Entry :=
  let rawDate := jsOrS (byCol row "date") (jsOrS (byCol row "txn date")
    (jsOrS (byCol row "value date") (byCol row "posting")))
  let dt : String := { data := trimList (stringOfOpt rawDate).data }
  let date := if (findDMY dt.data).isSome then dt
    else if (findDMonY dt.data).isSome then dt else ""
  let amount := resolveAmount row
  let rawDesc := jsOrS (byCol row "description") (jsOrS (byCol row "narration")
    (jsOrS (byCol row "remark") (byCol row "details")))
  let desc : String := { data := trimList (stringOfOpt rawDesc).data }
  let rawRef := jsOrS (byCol row "utr") (jsOrS (byCol row "ref")
    (jsOrS (byCol row "reference") (jsOrS (byCol row "txn id") (byCol row "upi ref"))))
  let ref := firstAlnumRun8 (stringOfOpt rawRef)
  let rawMode := jsOrS (byCol row "mode") (jsOrS (byCol row "channel") (byCol row "type"))
  let modeCol : String := { data := trimList (stringOfOpt rawMode).data }
  let mode := if modeCol ≠ "" then modeCol else modeKeyword desc
  match amount with
  | none => none
  | some a => some { date := date, amount := a, desc := desc, ref := ref, mode := mode }

/-- C8: mapRowToEntry returns null exactly when no amount resolves from
the row, where resolution is the truthy-first chain over the columns
whose normalized headers contain amount, credit, cr amount or deposit
(in that order) with the credit-then-debit positive fallback, a
NaN or zero parse being unresolvable; every non-null result carries the
resolved amount as its number.  The concrete rows exercise the direct
column, the debit fallback and the no-amount discard. -/
theorem c8_row_discarded_iff_no_amount :
    (∀ row : Row, mapRowToEntry row = none ↔ resolveAmount row = none) ∧
    (∀ (row : Row) (e : Entry), mapRowToEntry row = some e →
      resolveAmount row = some e.amount) ∧
    mapRowToEntry [("Amount", "500")] =
      some { date := "", amount := 500, desc := "", ref := "", mode := "" } ∧
    mapRowToEntry [("Debit", "300"), ("Credit", "")] =
      some { date := "", amount := 300, desc := "", ref := "", mode := "" } ∧
    mapRowToEntry [("Narration", "hello")] = none := by
  refine ⟨?_, ?_, by decide, by decide, by decide⟩
  · intro row
    unfold mapRowToEntry
    cases h : resolveAmount row <;> simp [h]
  · intro row e
    unfold mapRowToEntry
    cases h : resolveAmount row with
    | none => simp
    | some a =>
      intro he
      simp only [Option.some.injEq] at he
      rw [← he]

/-- Witness for C8: the carried-amount implication applied to a concrete
row, its hypothesis discharged by computation. -/
theorem c8_witness :
    resolveAmount [("Amount", "500")] =
      some (Entry.amount { date := "", amount := 500, desc := "", ref := "", mode := "" }) :=
  c8_row_discarded_iff_no_amount.2.1 [("Amount", "500")]
    { date := "", amount := 500, desc := "", ref := "", mode := "" } (by decide)

/-! Claim C7: the weighted-candidate extractAmount (src/app.js lines
94-133 and the identical copies in the other revisions). -/

structure Cand where
  val : ℚ
  weight : ℚ
deriving DecidableEq, Repr

/-- Split the text at runs of newlines, keeping the leading or trailing
empty piece exactly as the JS split does; the flag records whether the
previous character was a newline. -/
def splitNlAux : List Char → List Char → Bool → List (List Char)
  | [], cur, _ => [cur.reverse]
  | c :: rest, cur, prevNl =>
    if c = '\n' then
      if prevNl then splitNlAux rest cur true
      else cur.reverse :: splitNlAux rest [] true
    else splitNlAux rest (c :: cur) false

def splitNlRuns (cs : List Char) : List (List Char) := splitNlAux cs [] false

def containsInsens (sub : String) (big : List Char) : Bool :=
  strIncl sub.data (lowerList big)

/-- The currency marker line test: a rupee sign, rs or inr anywhere
(case-insensitive; the optional dot of rs adds nothing to a containment
test). -/
def hasCurrencyMarker (line : List Char) : Bool :=
  line.contains '₹' || containsInsens "rs" line || containsInsens "inr" line

/-- The label keyword line test. -/
def hasLabelWord (line : List Char) : Bool :=
  containsInsens "total amount" line || containsInsens "amount" line ||
  containsInsens "debited" line || containsInsens "credited" line ||
  containsInsens "paid" line || containsInsens "transfer" line

/-- One numeric token at the head of the list: a digit, then greedily
digits, commas and whitespace, then an optional dot with one or two
digits; returns the token and the remainder after it. -/
def numTokenHere (cs : List Char) : Option (List Char × List Char) :=
  match cs with
  | [] => none
  | c :: rest =>
    if digitC c then
      let body := rest.takeWhile (fun d => digitC d || d = ',' || jsWs d)
      let rest2 := rest.drop body.length
      match rest2 with
      | '.' :: d1 :: tl =>
        if digitC d1 then
          match tl with
          | d2 :: tl2 =>
            if digitC d2 then some (c :: body ++ ['.', d1, d2], tl2)
            else some (c :: body ++ ['.', d1], d2 :: tl2)
          | [] => some (c :: body ++ ['.', d1], [])
        else some (c :: body, rest2)
      | _ => some (c :: body, rest2)
    else none

/-- Leftmost numeric token of a line (the single line.match). -/
def firstNumToken : List Char → Option (List Char)
  | [] => none
  | c :: rest =>
    match numTokenHere (c :: rest) with
    | some r => some r.1
    | none => firstNumToken rest

/-- All non-overlapping numeric tokens in order (matchAll); the fuel is
the list length, enough because every step consumes at least one
character. -/
def allNumTokensAux : Nat → List Char → List (List Char)
  | 0, _ => []
  | _ + 1, [] => []
  | fuel + 1, c :: rest =>
    match numTokenHere (c :: rest) with
    | some r => r.1 :: allNumTokensAux fuel r.2
    | none => allNumTokensAux fuel rest

def allNumTokens (cs : List Char) : List (List Char) :=
  allNumTokensAux cs.length cs

/-- The OCR glyph cleanup: O and o to 0, I and l to 1, then commas and
whitespace removed. -/
def cleanNumericToken (cs : List Char) : List Char :=
  ((cs.map (fun c => if c = 'O' || c = 'o' then '0' else c)).map
    (fun c => if c = 'I' || c = 'l' then '1' else c)).filter
    (fun c => !(c = ',' || jsWs c))

def skipWs (cs : List Char) : List Char := cs.dropWhile jsWs

/-- Optional whitespace then the captured numeric group after a currency
marker. -/
def numAfterMarker (cs : List Char) : Option (List Char) :=
  (numTokenHere (skipWs cs)).map (fun r => r.1)

/-- The currency-marked amount regex tried at one position: the rupee
sign, rs with an optional dot (the dot-consuming branch first, as the
greedy optional tries it first), or inr, each followed by optional
whitespace and the captured number; the three markers are mutually
exclusive on their first character. -/
def currencyHere (cs : List Char) : Option (List Char) :=
  match cs with
  | '₹' :: rest => numAfterMarker rest
  | a :: b :: rest =>
    if (Char.toLower a == 'r') && (Char.toLower b == 's') then
      match rest with
      | '.' :: rest2 =>
        (match numAfterMarker rest2 with
         | some tok => some tok
         | none => numAfterMarker rest)
      | _ => numAfterMarker rest
    else if (Char.toLower a == 'i') && (Char.toLower b == 'n') then
      match rest with
      | c :: rest2 => if Char.toLower c == 'r' then numAfterMarker rest2 else none
      | [] => none
    else none
  | _ => none

def findCurrency : List Char → Option (List Char)
  | [] => none
  | c :: rest =>
    match currencyHere (c :: rest) with
    | some tok => some tok
    | none => findCurrency rest

/-- Word boundary after a word character: end of input or a non-word
character. -/
def boundaryAfterWord (rest : List Char) : Bool :=
  match rest with
  | [] => true
  | c :: _ => !wordC c

/-- The rupees, rs-with-optional-dot or only keyword with its trailing
word boundary, at the head of the list.  For the rs branch the
greedy-dot and dotless alternatives together accept exactly a non-word
follower (a dot is itself non-word, and a dot followed by a word
character matches through the dot-consuming branch). -/
def kwMatchHere (cs : List Char) : Bool :=
  ((lowerList (cs.take 6) == "rupees".data) && boundaryAfterWord (cs.drop 6)) ||
  ((lowerList (cs.take 2) == "rs".data) && boundaryAfterWord (cs.drop 2)) ||
  ((lowerList (cs.take 4) == "only".data) && boundaryAfterWord (cs.drop 4))

def phraseClassC (c : Char) : Bool := alphaC c || jsWs c || c = '-'

/-- Try group lengths from n down to 1 (the greedy backtracking order of
a plus-quantified group). -/
def tryLens : Nat → (Nat → Option (List Char)) → Option (List Char)
  | 0, _ => none
  | n + 1, f =>
    match f (n + 1) with
    | some r => some r
    | none => tryLens n f

/-- The spelled-phrase regex at one position: a greedy run of letters,
whitespace and hyphens, then at least one whitespace, then a keyword
with its boundary; returns the captured phrase. -/
def wordsPhraseHere (cs : List Char) : Option (List Char) :=
  let run := cs.takeWhile phraseClassC
  tryLens run.length (fun len =>
    let g := cs.take len
    let rest := cs.drop len
    let ws := rest.takeWhile jsWs
    if ws.isEmpty then none
    else if kwMatchHere (rest.drop ws.length) then some g else none)

def findWordsPhrase : List Char → Option (List Char)
  | [] => none
  | c :: rest =>
    match wordsPhraseHere (c :: rest) with
    | some g => some g
    | none => findWordsPhrase rest

/-- The H:MM test of lineLooksLikeTime: some digit, colon, digit, digit
run. -/
def hasTimeDigits : List Char → Bool
  | a :: b :: c :: d :: rest =>
    (digitC a && (b == ':') && digitC c && digitC d) ||
      hasTimeDigits (b :: c :: d :: rest)
  | _ => false

/-- The am-or-pm-with-boundary test of lineLooksLikeTime. -/
def hasAmPm : List Char → Bool
  | a :: b :: rest =>
    (((Char.toLower a == 'a') || (Char.toLower a == 'p')) &&
        (Char.toLower b == 'm') && boundaryAfterWord rest) ||
      hasAmPm (b :: rest)
  | _ => false

def lineLooksLikeTime (line : List Char) : Bool :=
  hasTimeDigits line && hasAmPm line

def hasSepChar (cs : List Char) : Bool := cs.any (fun c => c = ',' || jsWs c)

def digitCount (cs : List Char) : Nat := (cs.filter digitC).length

/-- The fallback decision for one matched numeric token: parse the
cleaned token, skip values under 50, skip separator-less tokens of nine
or more digits, and weight 2 a separator-bearing token against 1.2 for a
bare one. -/
def fallbackTokenCand (raw : List Char) : Option Cand :=
  match parseFloatDigitsDots (cleanNumericToken raw) with
  | none => none
  | some n =>
    if n < 50 then none
    else if hasSepChar raw = false ∧ 9 ≤ digitCount raw then none
    else some { val := n, weight := if hasSepChar raw then 2 else (6 / 5 : ℚ) }

/-- Does y stay in front of x under the sort comparator (descending
weight, then descending value, stable on ties)? -/
def sortKeepFirst (y x : Cand) : Bool :=
  decide (x.weight < y.weight) ||
    ((y.weight == x.weight) && decide (x.val < y.val))

def insCand (x : Cand) : List Cand → List Cand
  | [] => [x]
  | y :: ys => if sortKeepFirst y x then y :: insCand x ys else x :: y :: ys

/-- The stable sort of the candidate list under the comparator. -/
def sortCands (l : List Cand) : List Cand := l.foldr insCand []

/-- extractAmount: collect weighted candidates from currency-marked
lines, label lines, a spelled-out phrase and the per-line numeric
fallback, then return the value of the best candidate.  The words pass
uses the seen-flag wordsToNumber beside which this extractAmount
revision sits; the revisions agree except on a phrase parsing to
zero. -/
def extractAmount (text : String) : Option ℚ :=
  let lines := ((splitNlRuns text.data).map trimList).filter (fun l => !l.isEmpty)
  let currencyCands := lines.filterMap (fun line =>
    if hasCurrencyMarker line then
      (findCurrency line).bind (fun tok =>
        (parseFloatDigitsDots (cleanNumericToken tok)).map
          (fun v => { val := v, weight := 5 }))
    else none)
  let labelCands := lines.filterMap (fun line =>
    if hasLabelWord line then
      (firstNumToken line).bind (fun tok =>
        (parseFloatDigitsDots (cleanNumericToken tok)).map
          (fun v => { val := v, weight := 4 }))
    else none)
  let wordCands : List Cand :=
    match findWordsPhrase text.data with
    | some g =>
      match wordsToNumber { data := g } with
      | some w => [{ val := (w : ℚ), weight := 3 }]
      | none => []
    | none => []
  let fallbackCands := (lines.map (fun line =>
    if lineLooksLikeTime line then []
    else (allNumTokens line).filterMap fallbackTokenCand)).flatten
  let cands := currencyCands ++ labelCands ++ wordCands ++ fallbackCands
  match (sortCands cands).head? with
  | some c => some c.val
  | none => none

/-- C7: a separator-less numeric token of nine or more digits never
contributes a fallback candidate, and on the text holding the
currency-marked 1,200 line and, elsewhere, only the bare 11 digit token
98765432109 (in either line order) extractAmount returns 1200 through
the weight-5 currency candidate. -/
theorem c7_long_bare_token_excluded :
    (∀ raw : List Char, hasSepChar raw = false → 9 ≤ digitCount raw →
      fallbackTokenCand raw = none) ∧
    extractAmount "₹ 1,200\n98765432109" = some 1200 ∧
    extractAmount "98765432109\n₹ 1,200" = some 1200 := by
  refine ⟨?_, by decide, by decide⟩
  intro raw hsep hdig
  unfold fallbackTokenCand
  cases h : parseFloatDigitsDots (cleanNumericToken raw) with
  | none => rfl
  | some n =>
    by_cases hn : n < 50
    · simp [hn]
    · simp [hn, hsep, hdig]

/-- Witness for C7: the exclusion rule applied to the concrete bare
eleven digit token, both hypotheses discharged by computation. -/
theorem c7_witness :
    hasSepChar "98765432109".data = false ∧ 9 ≤ digitCount "98765432109".data ∧
    fallbackTokenCand "98765432109".data = none :=
  ⟨by decide, by decide,
   c7_long_bare_token_excluded.1 "98765432109".data (by decide) (by decide)⟩

end MRT
